import Mathlib

/-!
# Verification of the AI-Quiz response-parsing and statistics core

Shallow embedding of the free-text MCQ parser (`parse_mcq_response`,
identical in `app.py` and `final.py`), the sectioned analysis parser
(`get_gemini_user_analysis`'s section-splitting loop in `final.py`), and
the user statistics aggregation (`get_user_detailed_stats`,
`render_user_performance_stats`'s linear-trend classifier in `final.py`).

Text is modelled as `List Char`.  Python string operations (`strip`,
`split('\n')`, `in`, `startswith`, `lower`, `replace`) are embedded
directly; the two regexes of `parse_mcq_response` are embedded as
deterministic matchers, faithful to Python `re` semantics as argued in
the comments at each definition.
-/

namespace AIQuiz

/-- Python `\s` / `str.strip()` whitespace for ASCII text:
space, tab, newline, carriage return, vertical tab, form feed. -/
def pyIsSpace (c : Char) : Bool :=
  c = ' ' || c = '\t' || c = '\n' || c = '\r' || c = '\x0b' || c = '\x0c'

/-- Python `\d` / `str.isdigit()` for ASCII text: `'0'..'9'`. -/
def pyIsDigit (c : Char) : Bool :=
  '0' ≤ c && c ≤ '9'

/-- Python `str.strip()`: drop leading and trailing whitespace. -/
def pystrip (l : List Char) : List Char :=
  ((l.dropWhile pyIsSpace).reverse.dropWhile pyIsSpace).reverse

/-- Python `str.split('\n')`: split at every newline; never returns `[]`
(the split of the empty string is `[""]`). -/
def splitOnNl : List Char → List (List Char)
  | [] => [[]]
  | c :: cs =>
    if c = '\n' then [] :: splitOnNl cs
    else
      match splitOnNl cs with
      | [] => [[c]]
      | s :: rest => (c :: s) :: rest

/-- Python `str.lower()` for ASCII text. -/
def pyLower (l : List Char) : List Char :=
  l.map Char.toLower

/-- Python `needle in haystack` substring test (the empty needle is in
every string). -/
def pyContains (hay pat : List Char) : Bool :=
  match hay with
  | [] => pat.isEmpty
  | c :: t => pat.isPrefixOf (c :: t) || pyContains t pat

/-- The question-start marker regex `\n\s*\d+[\.|\)]\s*` of
`re.split(r'\n\s*\d+[\.|\)]\s*', '\n' + text)`: a newline, then
whitespace, one or more digits, one of `.`/`|`/`)` (the character class
`[\.|\)]` literally contains `|`), then whitespace.

If the suffix `l` matches at its start, returns the remainder after the
(greedy, leftmost) match, else `none`.  The greedy regex is
deterministic here: shortening `\s*` would put a whitespace character
where `\d` must match, and shortening `\d+` would put a digit where the
class `[.|)]` must match, so neither backtrack can succeed. -/
def matchMarker : List Char → Option (List Char)
  | [] => none
  | c :: rest =>
    if c = '\n' then
      match rest.dropWhile pyIsSpace with
      | [] => none
      | d :: ds =>
        if pyIsDigit d then
          match (d :: ds).dropWhile pyIsDigit with
          | [] => none
          | sep :: r2 =>
            if sep = '.' || sep = '|' || sep = ')' then
              some (r2.dropWhile pyIsSpace)
            else none
        else none
    else none

/-- A successful marker match consumes at least the newline, one digit
and the separator, so the remainder is strictly shorter. -/
theorem matchMarker_length {l rest : List Char}
    (h : matchMarker l = some rest) : rest.length < l.length := by
  match l with
  | [] => simp [matchMarker] at h
  | c :: cs =>
    simp only [matchMarker] at h
    by_cases hc : c = '\n'
    · simp only [hc, if_true] at h
      cases hd : cs.dropWhile pyIsSpace with
      | nil => rw [hd] at h; simp at h
      | cons d ds =>
        rw [hd] at h
        by_cases hdig : pyIsDigit d
        · simp only [hdig, if_true] at h
          cases hd2 : (d :: ds).dropWhile pyIsDigit with
          | nil => rw [hd2] at h; simp at h
          | cons sep r2 =>
            rw [hd2] at h
            by_cases hsep : sep = '.' || sep = '|' || sep = ')'
            · simp only [hsep, if_true, Option.some.injEq] at h
              subst h
              have h1 : (sep :: r2).length ≤ ds.length := by
                have hdd : (d :: ds).dropWhile pyIsDigit = ds.dropWhile pyIsDigit := by
                  simp [List.dropWhile_cons, hdig]
                rw [hdd] at hd2
                have := (List.dropWhile_suffix (l := ds) pyIsDigit).length_le
                rw [hd2] at this
                exact this
              have h2 : (d :: ds).length ≤ cs.length := by
                have := (List.dropWhile_suffix (l := cs) pyIsSpace).length_le
                rw [hd] at this
                exact this
              have h3 : (r2.dropWhile pyIsSpace).length ≤ r2.length :=
                (List.dropWhile_suffix pyIsSpace).length_le
              simp only [List.length_cons] at *
              omega
            · simp [hsep] at h
        · simp [hdig] at h
    · simp [hc] at h

/-- One scanning pass of `re.split`: accumulate characters until the
marker matches at the current position, emit the accumulated segment,
and continue after the match.  `fuel` is a structural-recursion bound;
every call site supplies `fuel > length of the text`, which always
suffices since each step strictly shortens the text (the `fuel = 0`
branch is unreachable there). -/
def resplitAux : Nat → List Char → List Char → List (List Char)
  | 0, cur, s => [cur.reverse ++ s]
  | _ + 1, cur, [] => [cur.reverse]
  | fuel + 1, cur, c :: cs =>
    match matchMarker (c :: cs) with
    | some rest => cur.reverse :: resplitAux fuel [] rest
    | none => resplitAux fuel (c :: cur) cs

/-- Embedding of `re.split(r'\n\s*\d+[\.|\)]\s*', s)`. -/
def resplit (s : List Char) : List (List Char) :=
  resplitAux (s.length + 1) [] s

/-- One parsed MCQ option `{letter, text}`. -/
structure MCQOption where
  letter : Char
  text : List Char
  deriving DecidableEq, Repr

/-- One parsed question `{question, options, correct_option}`. -/
structure ParsedQuestion where
  question : List Char
  options : List MCQOption
  correct_option : Char
  deriving DecidableEq, Repr

/-- The option-line regex `^([a-d])[\.|\)]?\s+(.+)$` (IGNORECASE),
applied by the source to an already-`strip`ped line.  Returns the
lowercased letter (`match.group(1).lower()`) and the text captured by
`(.+)`.

Determinism of the greedy regex on stripped input: if the optional
separator `[.|)]?` is present but not followed by whitespace, dropping
it puts the separator character (not whitespace) where `\s+` must
match, so the backtrack fails; `\s+` takes the maximal whitespace run,
after which the remainder is non-empty because a stripped line does not
end in whitespace. -/
def optMatch (l : List Char) : Option (Char × List Char) :=
  match l with
  | [] => none
  | c :: rest =>
    if c.toLower = 'a' || c.toLower = 'b' || c.toLower = 'c' || c.toLower = 'd' then
      let afterSep :=
        match rest with
        | s :: t => if s = '.' || s = '|' || s = ')' then t else rest
        | [] => rest
      let spaces := afterSep.takeWhile pyIsSpace
      let txt := afterSep.dropWhile pyIsSpace
      if spaces = [] then none
      else if txt = [] then none
      else some (c.toLower, txt)
    else none

/-- Embedding of `'*' in option_text or 'correct' in option_text.lower()`. -/
def isMarked (t : List Char) : Bool :=
  t.contains '*' || pyContains (pyLower t) ("correct".toList)

/-- Embedding of `option_text.replace('*', '')`. -/
def removeStar (t : List Char) : List Char :=
  t.filter (· ≠ '*')

/-- The body of the option-scanning loop of `parse_mcq_response`:
strip the line, skip blanks, try the option pattern; on a match, test
the correctness marker, which overwrites `correct_option` and strips
asterisks from the stored text. -/
def optStep (st : List MCQOption × Option Char) (line : List Char) :
    List MCQOption × Option Char :=
  let l := pystrip line
  if l = [] then st
  else
    match optMatch l with
    | none => st
    | some (letter, rawTxt) =>
      let txt := pystrip rawTxt
      if isMarked txt then
        (st.1 ++ [⟨letter, pystrip (removeStar txt)⟩], some letter)
      else
        (st.1 ++ [⟨letter, txt⟩], st.2)

/-- The option-scanning loop over `lines[1:]` of a block. -/
def parseOptions (lines : List (List Char)) : List MCQOption × Option Char :=
  lines.foldl optStep ([], none)

/-- The per-block body of the main loop of `parse_mcq_response`:
skip whitespace-only blocks, take the first line (stripped) as the
question text, scan the remaining lines for options, and emit the
question only when question text, options and correct option are all
present (`if question_text and options and correct_option`). -/
def parseBlock (block : List Char) : Option ParsedQuestion :=
  let s := pystrip block
  if s = [] then none
  else
    match splitOnNl s with
    | [] => none
    | q :: rest =>
      let question_text := pystrip q
      let st := parseOptions rest
      match st.2 with
      | none => none
      | some c =>
        if question_text ≠ [] ∧ st.1 ≠ [] then
          some ⟨question_text, st.1, c⟩
        else none

/-- Embedding of `parse_mcq_response` applied to the extracted response text
(`app.py` and `final.py` have the same parsing logic; the surrounding
JSON-field extraction and `final.py`'s `try/except` are plumbing around
this pure text transformation).  Splits `'\n' + text` at question-start
markers, skips the preamble segment `question_blocks[0]`, and collects
the well-formed blocks in order. -/
def parse_mcq_response (text : List Char) : List ParsedQuestion :=
  let blocks := resplit ('\n' :: text)
  if 1 < blocks.length then (blocks.drop 1).filterMap parseBlock else []

/-! ### Spec-side views of a question block

These re-express the intermediate values of `parseBlock` so that claims
about blocks can be stated without re-running the whole parser. -/

/-- The lines of a block after the question line (`lines[1:]`). -/
def blockLines (block : List Char) : List (List Char) :=
  (splitOnNl (pystrip block)).tail

/-- The (stripped) question line of a block (`lines[0].strip()`). -/
def questionTextOf (block : List Char) : List Char :=
  pystrip ((splitOnNl (pystrip block)).headD [])

/-- The options collected from a block. -/
def optionsOf (block : List Char) : List MCQOption :=
  (parseOptions (blockLines block)).1

/-- The resolved correct option of a block. -/
def correctOf (block : List Char) : Option Char :=
  (parseOptions (blockLines block)).2

/-- The letter of a line, when the line is an option line carrying a
correctness marker (an asterisk or the substring `correct`). -/
def markedLetter (line : List Char) : Option Char :=
  match optMatch (pystrip line) with
  | some (c, t) => if isMarked (pystrip t) then some c else none
  | none => none

/-! ### The sectioned analysis parser

Embedding of the section-splitting loop of `get_gemini_user_analysis`
(`final.py` lines 477–535).  The loop keeps a current-section cursor
and a line buffer; a heading match flushes the buffer into the
previously active section.  The branch testing
`line[0].isdigit() and line[1] in ['.', ')']` raises `IndexError` on a
single-character digit line (caught by the surrounding `try`), so the
embedding returns `Except`. -/

/-- Python dict assignment `sections[k] = v`: replace in place if the
key exists, else append (insertion order preserved). -/
def dictSet : List (String × List (List Char)) → String → List (List Char) →
    List (String × List (List Char))
  | [], k, v => [(k, v)]
  | (k', v') :: rest, k, v =>
    if k' = k then (k, v) :: rest else (k', v') :: dictSet rest k v

/-- Python dict lookup `sections.get(k)`. -/
def dictGet : List (String × List (List Char)) → String → Option (List (List Char))
  | [], _ => none
  | (k', v') :: rest, k => if k' = k then some v' else dictGet rest k

/-- The loop state: the `sections` dict, the `current_section` cursor
and the `section_content` buffer. -/
structure AnState where
  sections : List (String × List (List Char))
  current : Option String
  buf : List (List Char)
  deriving DecidableEq, Repr

/-- Embedding of `if current_section and section_content: sections[current_section]
= section_content` — flush the buffer into the active section. -/
def flushSections (st : AnState) : List (String × List (List Char)) :=
  match st.current with
  | some k => if st.buf ≠ [] then dictSet st.sections k st.buf else st.sections
  | none => st.sections

/-- One iteration of the section-splitting loop of
`get_gemini_user_analysis` on a raw line.  Branches appear in source
order; note that the first branch (`Performance Summary`) does *not*
flush the buffer (faithful to the source), while every other heading
branch does. -/
def anStep (st : AnState) (rawLine : List Char) : Except Unit AnState :=
  let line := pystrip rawLine
  if line = [] then .ok st
  else if pyContains line ("Performance Summary".toList) ||
      pyContains (pyLower line) ("performance summary".toList) then
    .ok ⟨st.sections, some "summary", []⟩
  else if pyContains line ("Strengths".toList) ||
      pyContains (pyLower line) ("strengths".toList) then
    .ok ⟨flushSections st, some "strengths", []⟩
  else if pyContains line ("Areas for Improvement".toList) ||
      pyContains (pyLower line) ("areas for improvement".toList) ||
      pyContains (pyLower line) ("improvement".toList) then
    .ok ⟨flushSections st, some "improvements", []⟩
  else if pyContains line ("Personalized Study Plan".toList) ||
      pyContains (pyLower line) ("study plan".toList) then
    .ok ⟨flushSections st, some "study_plan", []⟩
  else if pyContains line ("Motivational Note".toList) ||
      pyContains (pyLower line) ("motivation".toList) then
    .ok ⟨flushSections st, some "motivation", []⟩
  else if ("1.".toList.isPrefixOf line) && (st.current == none) then
    .ok ⟨st.sections, some "summary", [line]⟩
  else if ("2.".toList.isPrefixOf line) && (st.current == some "summary") then
    .ok ⟨flushSections st, some "strengths", [line]⟩
  else if ("3.".toList.isPrefixOf line) && (st.current == some "strengths") then
    .ok ⟨flushSections st, some "improvements", [line]⟩
  else if ("4.".toList.isPrefixOf line) && (st.current == some "improvements") then
    .ok ⟨flushSections st, some "study_plan", [line]⟩
  else if ("5.".toList.isPrefixOf line) && (st.current == some "study_plan") then
    .ok ⟨flushSections st, some "motivation", [line]⟩
  else if ("-".toList.isPrefixOf line) || ("*".toList.isPrefixOf line) then
    .ok ⟨st.sections, st.current, st.buf ++ [line]⟩
  else
    match line with
    | [] => .ok st
    | [c] =>
      if pyIsDigit c then .error ()
      else if st.current.isSome then .ok ⟨st.sections, st.current, st.buf ++ [line]⟩
      else .ok st
    | c :: c2 :: _ =>
      if pyIsDigit c && (c2 = '.' || c2 = ')') then
        .ok ⟨st.sections, st.current, st.buf ++ [line]⟩
      else if st.current.isSome then .ok ⟨st.sections, st.current, st.buf ++ [line]⟩
      else .ok st

/-- Run the loop over the lines, propagating an exception. -/
def anRun (st : AnState) : List (List Char) → Except Unit AnState
  | [] => .ok st
  | l :: ls =>
    match anStep st l with
    | .ok st' => anRun st' ls
    | .error e => .error e

/-- The section-splitting of `get_gemini_user_analysis`, lines level:
run the loop from the empty state and apply the final flush. -/
def userAnalysisSectionsOfLines (lines : List (List Char)) :
    Except Unit (List (String × List (List Char))) :=
  match anRun ⟨[], none, []⟩ lines with
  | .error e => .error e
  | .ok st => .ok (flushSections st)

/-- The section-splitting of `get_gemini_user_analysis` on the raw
analysis text (`analysis_text.split('\n')`, then the loop). -/
def userAnalysisSections (text : List Char) :
    Except Unit (List (String × List (List Char))) :=
  userAnalysisSectionsOfLines (splitOnNl text)

/-- A body line that is inert for the section-splitting loop: already
stripped, non-blank, matching none of the heading matchers, starting
with none of the positional enumeration markers `1.`–`5.`, and not a
lone digit (which would raise `IndexError` in the source). -/
def PlainBody (l : List Char) : Prop :=
  pystrip l = l ∧ l ≠ [] ∧
  pyContains l ("Performance Summary".toList) = false ∧
  pyContains (pyLower l) ("performance summary".toList) = false ∧
  pyContains l ("Strengths".toList) = false ∧
  pyContains (pyLower l) ("strengths".toList) = false ∧
  pyContains l ("Areas for Improvement".toList) = false ∧
  pyContains (pyLower l) ("areas for improvement".toList) = false ∧
  pyContains (pyLower l) ("improvement".toList) = false ∧
  pyContains l ("Personalized Study Plan".toList) = false ∧
  pyContains (pyLower l) ("study plan".toList) = false ∧
  pyContains l ("Motivational Note".toList) = false ∧
  pyContains (pyLower l) ("motivation".toList) = false ∧
  ("1.".toList.isPrefixOf l) = false ∧
  ("2.".toList.isPrefixOf l) = false ∧
  ("3.".toList.isPrefixOf l) = false ∧
  ("4.".toList.isPrefixOf l) = false ∧
  ("5.".toList.isPrefixOf l) = false ∧
  (match l with | [c] => pyIsDigit c = false | _ => True)

instance plainBodyAuxDec (l : List Char) :
    Decidable (match l with | [c] => pyIsDigit c = false | _ => True) :=
  match l with
  | [] => inferInstanceAs (Decidable True)
  | [c] => inferInstanceAs (Decidable (pyIsDigit c = false))
  | _ :: _ :: _ => inferInstanceAs (Decidable True)

instance plainBodyDec (l : List Char) : Decidable (PlainBody l) := by
  unfold PlainBody
  infer_instance

/-- An analysis text laid out exactly as the prompt requests: the five
configured headings in configured order, each followed by its body
lines. -/
def userAnalysisCanonical (bs1 bs2 bs3 bs4 bs5 : List (List Char)) :
    List (List Char) :=
  ["Performance Summary".toList] ++ bs1 ++ ["Strengths".toList] ++ bs2 ++
  ["Areas for Improvement".toList] ++ bs3 ++ ["Personalized Study Plan".toList] ++ bs4 ++
  ["Motivational Note".toList] ++ bs5

/-! ### User statistics (`get_user_detailed_stats`, `final.py`) -/

/-- One quiz-attempt record, restricted to the fields the modelled
statistics read.  `end_time` is a timestamp, `score_percentage` the
score in `[0, 100]`. -/
structure QuizAttempt where
  end_time : Int
  score_percentage : ℚ
  score : Int
  total_questions : Int
  deriving DecidableEq, Repr

/-- Embedding of `history_df.sort_values(by="end_time")`: ascending sort by
`end_time` (tie order among equal timestamps is not specified by the
source, which fetches descending and re-sorts ascending). -/
def sortAsc (h : List QuizAttempt) : List QuizAttempt :=
  h.mergeSort (fun a b => decide (a.end_time ≤ b.end_time))

/-- Embedding of `rolling(window=3, min_periods=1).mean()` at position `i`: the mean
of the trailing window `scores[max(0, i-2) .. i]`. -/
def rollingAvg (s : List ℚ) (i : ℕ) : ℚ :=
  let lo := i + 1 - 3
  let window := (s.drop lo).take (i + 1 - lo)
  window.sum / window.length

/-- The fields of `get_user_detailed_stats` that the modelled claims
read. -/
structure UserDetailedStats where
  has_data : Bool
  total_quizzes : ℕ
  total_questions : Int
  correct_answers : Int
  avg_score : ℚ
  recent_trend : Option ℚ
  rolling_trend : Option ℚ
  deriving DecidableEq, Repr

/-- Embedding of `get_user_detailed_stats` over the fetched attempt collection:
the `has_data=False` sentinel on an empty history; otherwise totals and
means, the first-vs-last trend when at least 2 attempts exist, and the
rolling trend `rolling_avg.iloc[-1] - rolling_avg.iloc[2]` when at
least 5 exist.  The sums and means do not depend on order, so the
ascending re-sort is applied up front. -/
def get_user_detailed_stats (user_history : List QuizAttempt) : UserDetailedStats :=
  if user_history = [] then ⟨false, 0, 0, 0, 0, none, none⟩
  else
    let df := sortAsc user_history
    let n := df.length
    let scores := df.map (·.score_percentage)
    let totalQuestions := (df.map (·.total_questions)).sum
    let correctAnswers := (df.map (·.score)).sum
    let avgScore := scores.sum / (n : ℚ)
    let trends : Option ℚ × Option ℚ :=
      if 2 ≤ n then
        let recent := some (scores.getLastD 0 - scores.headD 0)
        if 5 ≤ n then
          (recent, some (rollingAvg scores (n - 1) - rollingAvg scores 2))
        else (recent, none)
      else (none, none)
    ⟨true, n, totalQuestions, correctAnswers, avgScore, trends.1, trends.2⟩

/-- Spec-side 3-attempt trailing moving average at index `i` (full
window `i-2, i-1, i`). -/
def trailingMA3 (s : List ℚ) (i : ℕ) : ℚ :=
  (s.getD (i - 2) 0 + s.getD (i - 1) 0 + s.getD i 0) / 3

/-! ### Linear trend (`stats.linregress` in
`render_user_performance_stats`, `final.py`) -/

/-- Index mean `x̄` for `x = 0, 1, …, n-1`. -/
def xMean (n : ℕ) : ℚ :=
  (((List.range n).map fun i => (i : ℚ)).sum) / (n : ℚ)

/-- Score mean `ȳ`. -/
def yMean (ys : List ℚ) : ℚ :=
  ys.sum / (ys.length : ℚ)

/-- Centered sum `Σ (xᵢ-x̄)²` of the regression of scores against
attempt index `0, 1, 2, …`. -/
def ssX (ys : List ℚ) : ℚ :=
  ((List.range ys.length).map fun i => ((i : ℚ) - xMean ys.length) ^ 2).sum

/-- Centered sum `Σ (yᵢ-ȳ)²`. -/
def ssY (ys : List ℚ) : ℚ :=
  (ys.map fun y => (y - yMean ys) ^ 2).sum

/-- Centered sum `Σ (xᵢ-x̄)(yᵢ-ȳ)`. -/
def ssXY (ys : List ℚ) : ℚ :=
  (ys.enum.map fun p => ((p.1 : ℚ) - xMean ys.length) * (p.2 - yMean ys)).sum

/-- The ordinary-least-squares slope of `stats.linregress(x, y)` with
`x = 0, 1, …, n-1`. -/
def linregress_slope (ys : List ℚ) : ℚ :=
  ssXY ys / ssX ys

/-- The correlation coefficient of `stats.linregress`: zero when either
series has zero variance, else `Σxy / √(Σxx·Σyy)` clamped to
`[-1, 1]`. -/
noncomputable def linregress_r (ys : List ℚ) : ℝ :=
  if ssX ys = 0 ∨ ssY ys = 0 then 0
  else max (-1) (min 1 ((ssXY ys : ℝ) / Real.sqrt ((ssX ys : ℝ) * (ssY ys : ℝ))))

open Classical in
/-- The trend classification of `render_user_performance_stats`:
`if abs(r_value) > 0.3:` upward/downward by the sign of the slope,
`else` stable. -/
noncomputable def trendMessage (slope : ℚ) (r : ℝ) : String :=
  if |r| > 0.3 then (if 0 < slope then "upward" else "downward") else "stable"

deriving instance DecidableEq for Except

/-! ## Theorems -/

/-- C1: running the MCQ parser on the raw scenario text yields exactly
two parsed questions, in input order: the first with
`correct_option = 'b'` and option `b` text `"4"` (asterisk stripped),
the second with `correct_option = 'b'` and option `b` text `"Paris"`. -/
theorem claim_C1 :
    parse_mcq_response ("1. What is 2+2?\na) 3\nb) 4*\nc) 5\nd) 6\n2. Capital of France?\na) Berlin\nb) Paris*\nc) Rome").toList =
    [⟨"What is 2+2?".toList,
      [⟨'a', "3".toList⟩, ⟨'b', "4".toList⟩, ⟨'c', "5".toList⟩, ⟨'d', "6".toList⟩], 'b'⟩,
     ⟨"Capital of France?".toList,
      [⟨'a', "Berlin".toList⟩, ⟨'b', "Paris".toList⟩, ⟨'c', "Rome".toList⟩], 'b'⟩] := by
  decide

/-- C10: the separator class after an option letter and after a
question number is `[.|)]`, so `b| Paris` parses as option `b` and a
line beginning `2| ` starts a new question block. -/
theorem claim_C10 :
    parse_mcq_response ("1. Q?\na| 3\nb| Paris*\n2| Second?\na) yes*\nb) no").toList =
    [⟨"Q?".toList, [⟨'a', "3".toList⟩, ⟨'b', "Paris".toList⟩], 'b'⟩,
     ⟨"Second?".toList, [⟨'a', "yes".toList⟩, ⟨'b', "no".toList⟩], 'a'⟩] := by
  decide

/-- The function `splitOnNl` never returns the empty list. -/
theorem splitOnNl_ne_nil (l : List Char) : splitOnNl l ≠ [] := by
  induction l with
  | nil => simp [splitOnNl]
  | cons c cs ih =>
    rw [splitOnNl]
    by_cases hc : c = '\n'
    · simp [hc]
    · simp only [hc, if_false]
      cases h : splitOnNl cs with
      | nil => exact absurd h ih
      | cons s rest => simp

/-- C2: the parser's output is exactly the per-block results over the
segmented blocks (text before the first marker discarded), and a block
yields a `ParsedQuestion` if and only if it has a non-empty question
line, at least one parsed option, and a resolved correct option. -/
theorem claim_C2 :
    (∀ text : List Char,
      parse_mcq_response text = ((resplit ('\n' :: text)).drop 1).filterMap parseBlock) ∧
    (∀ block : List Char,
      (parseBlock block).isSome ↔
        (questionTextOf block ≠ [] ∧ optionsOf block ≠ [] ∧ (correctOf block).isSome)) := by
  constructor
  · intro text
    rw [parse_mcq_response]
    by_cases hlen : 1 < (resplit ('\n' :: text)).length
    · rw [if_pos hlen]
    · rw [if_neg hlen]
      have : (resplit ('\n' :: text)).drop 1 = [] := by
        apply List.drop_eq_nil_of_le
        omega
      rw [this, List.filterMap_nil]
  · intro block
    rw [parseBlock, questionTextOf, optionsOf, correctOf, blockLines]
    by_cases hs : pystrip block = []
    · rw [hs]
      simp [splitOnNl, pystrip, parseOptions]
    · rw [if_neg hs]
      cases hsp : splitOnNl (pystrip block) with
      | nil => exact absurd hsp (splitOnNl_ne_nil _)
      | cons q rest =>
        simp only [List.headD_cons, List.tail_cons]
        cases hc : (parseOptions rest).2 with
        | none => simp [hc]
        | some c =>
          simp only [hc]
          by_cases hcond : pystrip q ≠ [] ∧ (parseOptions rest).1 ≠ []
          · rw [if_pos hcond]
            simp [hcond.1, hcond.2]
          · rw [if_neg hcond]
            simp only [Option.isSome_none, Bool.false_eq_true, false_iff]
            intro h
            exact hcond ⟨h.1, h.2.1⟩

/-- C2 witness: a concrete block with a question line, one option and a
marked correct option is emitted. -/
theorem claim_C2_witness : (parseBlock ("Q\na) x*".toList)).isSome :=
  (claim_C2.2 _).mpr (by decide)

/-- A line that is not a marked option line leaves the fold's
`correct_option` component unchanged. -/
theorem optStep_snd_of_markedLetter_none {l : List Char}
    (h : markedLetter l = none) (st : List MCQOption × Option Char) :
    (optStep st l).2 = st.2 := by
  rw [markedLetter] at h
  rw [optStep]
  by_cases he : pystrip l = []
  · rw [if_pos he]
  · rw [if_neg he]
    cases hmtch : optMatch (pystrip l) with
    | none => rfl
    | some p =>
      rw [hmtch] at h
      obtain ⟨a, t⟩ := p
      dsimp only at h ⊢
      by_cases hm : isMarked (pystrip t) = true
      · rw [if_pos hm] at h; simp at h
      · rw [if_neg hm]

/-- A marked option line overwrites the fold's `correct_option` with
its letter. -/
theorem optStep_snd_of_markedLetter_some {l : List Char} {c : Char}
    (h : markedLetter l = some c) (st : List MCQOption × Option Char) :
    (optStep st l).2 = some c := by
  rw [markedLetter] at h
  rw [optStep]
  by_cases he : pystrip l = []
  · rw [he] at h; simp [optMatch] at h
  · rw [if_neg he]
    cases hmtch : optMatch (pystrip l) with
    | none => rw [hmtch] at h; simp at h
    | some p =>
      rw [hmtch] at h
      obtain ⟨a, t⟩ := p
      dsimp only at h ⊢
      by_cases hm : isMarked (pystrip t) = true
      · rw [if_pos hm] at h
        rw [if_pos hm]
        simpa using h
      · rw [if_neg hm] at h; simp at h

/-- Computing `getLast?` of a cons, phrased through `Option.or`. -/
theorem getLast?_cons_or {α : Type} (c : α) (rest : List α) :
    (c :: rest).getLast? = rest.getLast?.or (some c) := by
  cases rest with
  | nil => simp
  | cons b t =>
    rw [List.getLast?_cons_cons]
    cases h : (b :: t).getLast? with
    | none => simp [List.getLast?_eq_none_iff] at h
    | some x => simp

/-- The `correct_option` component of the option-scanning fold is the
letter of the last marked option line, falling back to the initial
state. -/
theorem foldl_optStep_snd (ls : List (List Char)) (st : List MCQOption × Option Char) :
    (ls.foldl optStep st).2 = ((ls.filterMap markedLetter).getLast?).or st.2 := by
  induction ls generalizing st with
  | nil => simp
  | cons l ls ih =>
    rw [List.foldl_cons, ih]
    cases h : markedLetter l with
    | none =>
      rw [List.filterMap_cons_none h, optStep_snd_of_markedLetter_none h]
    | some c =>
      rw [List.filterMap_cons_some h, getLast?_cons_or, Option.or_assoc,
        optStep_snd_of_markedLetter_some h, Option.or_some]

/-- Dissection of a successful `parseBlock`: the emitted fields are the
block's extractors. -/
theorem parseBlock_some_eq {block : List Char} {q : ParsedQuestion}
    (h : parseBlock block = some q) :
    q.question = questionTextOf block ∧ q.options = optionsOf block ∧
      correctOf block = some q.correct_option := by
  rw [parseBlock] at h
  by_cases hs : pystrip block = []
  · rw [if_pos hs] at h; simp at h
  · rw [if_neg hs] at h
    cases hsp : splitOnNl (pystrip block) with
    | nil => exact absurd hsp (splitOnNl_ne_nil _)
    | cons q0 rest =>
      rw [hsp] at h
      simp only at h
      cases hc : (parseOptions rest).2 with
      | none => rw [hc] at h; simp at h
      | some c =>
        rw [hc] at h
        simp only at h
        by_cases hcond : pystrip q0 ≠ [] ∧ (parseOptions rest).1 ≠ []
        · rw [if_pos hcond, Option.some.injEq] at h
          subst h
          rw [questionTextOf, optionsOf, correctOf, blockLines, hsp]
          simp [hc]
        · rw [if_neg hcond] at h; simp at h

/-- C3: when a block has two or more marked option lines, the emitted
question's `correct_option` is the letter of the last marked option
line in the block. -/
theorem claim_C3 (block : List Char) (q : ParsedQuestion)
    (hq : parseBlock block = some q)
    (_hm : 2 ≤ ((blockLines block).filterMap markedLetter).length) :
    some q.correct_option = ((blockLines block).filterMap markedLetter).getLast? := by
  have h1 := (parseBlock_some_eq hq).2.2
  rw [correctOf, parseOptions, foldl_optStep_snd, Option.or_none] at h1
  exact h1.symm

/-- C3 witness: a block marking both options yields the second one. -/
theorem claim_C3_witness :
    some 'b' = ((blockLines ("Q\na) x*\nb) y*".toList)).filterMap markedLetter).getLast? :=
  claim_C3 ("Q\na) x*\nb) y*".toList)
    ⟨"Q".toList, [⟨'a', "x".toList⟩, ⟨'b', "y".toList⟩], 'b'⟩
    (by decide) (by decide)

/-- C4 counterexample: a block repeating the letter `a` on two option
lines, the first of them marked, is emitted with `correct_option = 'a'`
matching the letter of **two** entries of its options — not exactly
one as the claim states. -/
theorem claim_C4_counterexample :
    (parse_mcq_response ("1. Q\na) x*\na) y").toList).map
      (fun q => q.options.countP (fun o => o.letter == q.correct_option)) = [2] := by
  decide

/-- The option-scanning fold preserves the invariant that the resolved
correct letter belongs to some collected option. -/
theorem optStep_invariant (st : List MCQOption × Option Char) (l : List Char)
    (h0 : ∀ c, st.2 = some c → ∃ o ∈ st.1, o.letter = c) :
    ∀ c, (optStep st l).2 = some c → ∃ o ∈ (optStep st l).1, o.letter = c := by
  rw [optStep]
  by_cases he : pystrip l = []
  · rw [if_pos he]; exact h0
  · rw [if_neg he]
    cases hmtch : optMatch (pystrip l) with
    | none => exact h0
    | some p =>
      obtain ⟨a, t⟩ := p
      dsimp only
      by_cases hm : isMarked (pystrip t) = true
      · rw [if_pos hm]
        intro c hc
        dsimp only at hc
        refine ⟨⟨a, pystrip (removeStar (pystrip t))⟩, by simp, ?_⟩
        simpa using hc
      · rw [if_neg hm]
        intro c hc
        dsimp only at hc
        obtain ⟨o, ho, hol⟩ := h0 c hc
        exact ⟨o, by simp [ho], hol⟩

/-- The fold's invariant, lifted to whole line lists. -/
theorem foldl_optStep_mem (ls : List (List Char)) (st : List MCQOption × Option Char)
    (h0 : ∀ c, st.2 = some c → ∃ o ∈ st.1, o.letter = c) :
    ∀ c, (ls.foldl optStep st).2 = some c → ∃ o ∈ (ls.foldl optStep st).1, o.letter = c := by
  induction ls generalizing st with
  | nil => exact h0
  | cons l ls ih =>
    rw [List.foldl_cons]
    exact ih _ (optStep_invariant st l h0)

/-- C4 (amended): every emitted question's `correct_option` matches the
letter of **at least one** entry of its options, and of exactly one
when the block's option letters are pairwise distinct; a block
repeating a letter can make it match several entries. -/
theorem claim_C4 (block : List Char) (q : ParsedQuestion)
    (hq : parseBlock block = some q) :
    1 ≤ q.options.countP (fun o => o.letter == q.correct_option) ∧
    ((q.options.map (fun o => o.letter)).Nodup →
      q.options.countP (fun o => o.letter == q.correct_option) = 1) := by
  obtain ⟨-, hopts, hcorr⟩ := parseBlock_some_eq hq
  have hmem : ∃ o ∈ q.options, o.letter = q.correct_option := by
    rw [hopts, optionsOf]
    rw [correctOf, parseOptions] at hcorr
    exact foldl_optStep_mem _ _ (by simp) _ hcorr
  have hpos : 0 < q.options.countP (fun o => o.letter == q.correct_option) := by
    rw [List.countP_pos_iff]
    obtain ⟨o, ho, hol⟩ := hmem
    exact ⟨o, ho, by simp [hol]⟩
  refine ⟨hpos, fun hnd => ?_⟩
  have hle : q.options.countP (fun o => o.letter == q.correct_option) ≤ 1 := by
    have hcount := List.nodup_iff_count_le_one.mp hnd q.correct_option
    rw [List.count_eq_countP, List.countP_map] at hcount
    exact le_trans (le_of_eq (by rfl)) hcount
  omega

/-- C4 witness: on a block with distinct letters the count is exactly
one. -/
theorem claim_C4_witness :
    1 ≤ ([⟨'a', "x".toList⟩, ⟨'b', "y".toList⟩] : List MCQOption).countP
        (fun o => o.letter == 'a') ∧
    ((([⟨'a', "x".toList⟩, ⟨'b', "y".toList⟩] : List MCQOption).map
        (fun o => o.letter)).Nodup →
      ([⟨'a', "x".toList⟩, ⟨'b', "y".toList⟩] : List MCQOption).countP
        (fun o => o.letter == 'a') = 1) :=
  claim_C4 ("Q\na) x*\nb) y".toList)
    ⟨"Q".toList, [⟨'a', "x".toList⟩, ⟨'b', "y".toList⟩], 'a'⟩ (by decide)

/-- When no suffix of the text matches the question-start marker, the
scan returns the whole text as a single segment. -/
theorem resplitAux_of_no_marker (s : List Char) :
    ∀ (fuel : ℕ) (cur : List Char),
      (∀ s', s' <:+ s → matchMarker s' = none) →
      resplitAux fuel cur s = [cur.reverse ++ s] := by
  induction s with
  | nil =>
    intro fuel cur _
    cases fuel <;> simp [resplitAux]
  | cons c cs ih =>
    intro fuel cur h
    cases fuel with
    | zero => simp [resplitAux]
    | succ f =>
      rw [resplitAux]
      rw [h (c :: cs) (List.suffix_refl _)]
      rw [ih f (c :: cur) (fun s' hs' => h s' (hs'.trans (List.suffix_cons c cs)))]
      simp

/-- A successful marker match requires a digit somewhere in the text. -/
theorem matchMarker_has_digit {l r : List Char}
    (h : matchMarker l = some r) : ∃ c ∈ l, pyIsDigit c = true := by
  match l with
  | [] => simp [matchMarker] at h
  | c :: cs =>
    rw [matchMarker] at h
    by_cases hc : c = '\n'
    · rw [if_pos hc] at h
      cases hd : cs.dropWhile pyIsSpace with
      | nil => rw [hd] at h; simp at h
      | cons d ds =>
        rw [hd] at h
        by_cases hdig : pyIsDigit d = true
        · refine ⟨d, ?_, hdig⟩
          have : d ∈ cs := by
            have hsub : d :: ds <:+ cs := by
              rw [← hd]; exact List.dropWhile_suffix pyIsSpace
            exact hsub.subset (by simp)
          simp [this]
        · dsimp only at h
          rw [if_neg hdig] at h; simp at h
    · rw [if_neg hc] at h; simp at h

/-- Helper for C5: a text in which no suffix matches the question-start
marker parses to the empty sequence. -/
theorem parse_mcq_of_markerFree (text : List Char)
    (h : ∀ s', s' <:+ ('\n' :: text) → matchMarker s' = none) :
    parse_mcq_response text = [] := by
  rw [parse_mcq_response, resplit, resplitAux_of_no_marker _ _ _ h]
  simp

/-- Digits are not whitespace. -/
theorem pyIsDigit_not_space {c : Char}
    (hd : pyIsDigit c = true) (hs : pyIsSpace c = true) : False := by
  rw [pyIsSpace] at hs
  rw [pyIsDigit] at hd
  simp only [Bool.or_eq_true, decide_eq_true_eq] at hs
  simp only [Bool.and_eq_true, decide_eq_true_eq] at hd
  rcases hs with ((((h | h) | h) | h) | h) | h <;> subst h <;>
    exact absurd hd (by decide)

/-- C5: the parser is a total function (it is defined as a total function
in this embedding, so termination and absence of exceptions hold by
construction); a marker-free text — in particular an empty or
whitespace-only text — parses to the empty sequence. -/
theorem claim_C5 :
    (∀ text : List Char,
      (∀ s', s' <:+ ('\n' :: text) → matchMarker s' = none) →
      parse_mcq_response text = []) ∧
    (∀ text : List Char, (∀ c ∈ text, pyIsSpace c = true) →
      parse_mcq_response text = []) := by
  refine ⟨parse_mcq_of_markerFree, fun text hws => ?_⟩
  apply parse_mcq_of_markerFree
  intro s' hs'
  cases hm : matchMarker s' with
  | none => rfl
  | some r =>
    exfalso
    obtain ⟨c, hc, hdig⟩ := matchMarker_has_digit hm
    have hmem : c ∈ '\n' :: text := hs'.subset hc
    rcases List.mem_cons.mp hmem with h | h
    · subst h; simp [pyIsDigit] at hdig
    · exact pyIsDigit_not_space hdig (hws c h)

/-- C5 witness: the empty and a whitespace-only input parse to `[]`. -/
theorem claim_C5_witness : parse_mcq_response ("  \t ".toList) = [] :=
  claim_C5.2 ("  \t ".toList) (by decide)

/-- C6 counterexample: this text contains all five configured headings
in configured order, each followed by one non-blank body line, yet the
parser does not return all five section keys: the summary body line
`I see strengths here` contains the substring `strengths`, so the
case-insensitive substring matcher treats it as the `Strengths` heading
and the `summary` key is absent from the result. -/
theorem claim_C6_counterexample :
    userAnalysisSections ("Performance Summary\nI see strengths here\nStrengths\nAlgebra\nAreas for Improvement\nGeometry\nPersonalized Study Plan\nDo drills\nMotivational Note\nKeep going").toList =
      .ok [("strengths", ["Algebra".toList]), ("improvements", ["Geometry".toList]),
           ("study_plan", ["Do drills".toList]), ("motivation", ["Keep going".toList])] := by
  decide

/-- Processing the canonical `Performance Summary` heading line. -/
theorem anStep_heading_summary (st : AnState) :
    anStep st ("Performance Summary".toList) = .ok ⟨st.sections, some "summary", []⟩ := rfl

/-- Processing the canonical `Strengths` heading line. -/
theorem anStep_heading_strengths (st : AnState) :
    anStep st ("Strengths".toList) = .ok ⟨flushSections st, some "strengths", []⟩ := rfl

/-- Processing the canonical `Areas for Improvement` heading line. -/
theorem anStep_heading_improvements (st : AnState) :
    anStep st ("Areas for Improvement".toList) =
      .ok ⟨flushSections st, some "improvements", []⟩ := rfl

/-- Processing the canonical `Personalized Study Plan` heading line. -/
theorem anStep_heading_study_plan (st : AnState) :
    anStep st ("Personalized Study Plan".toList) =
      .ok ⟨flushSections st, some "study_plan", []⟩ := rfl

/-- Processing the canonical `Motivational Note` heading line. -/
theorem anStep_heading_motivation (st : AnState) :
    anStep st ("Motivational Note".toList) =
      .ok ⟨flushSections st, some "motivation", []⟩ := rfl

/-- An inert body line is appended to the active section's buffer. -/
theorem anStep_plain (st : AnState) (k : String) (hc : st.current = some k)
    {l : List Char} (hp : PlainBody l) :
    anStep st l = .ok ⟨st.sections, st.current, st.buf ++ [l]⟩ := by
  obtain ⟨hstrip, hne, c1, c2, c3, c4, c5, c6, c7, c8, c9, c10, c11,
    p1, p2, p3, p4, p5, hdig⟩ := hp
  rw [anStep]
  simp only [hstrip]
  rw [if_neg hne]
  rw [if_neg (by rw [c1, c2]; simp :
    ¬((pyContains l ("Performance Summary".toList) ||
       pyContains (pyLower l) ("performance summary".toList)) = true))]
  rw [if_neg (by rw [c3, c4]; simp :
    ¬((pyContains l ("Strengths".toList) ||
       pyContains (pyLower l) ("strengths".toList)) = true))]
  rw [if_neg (by rw [c5, c6, c7]; simp :
    ¬((pyContains l ("Areas for Improvement".toList) ||
       pyContains (pyLower l) ("areas for improvement".toList) ||
       pyContains (pyLower l) ("improvement".toList)) = true))]
  rw [if_neg (by rw [c8, c9]; simp :
    ¬((pyContains l ("Personalized Study Plan".toList) ||
       pyContains (pyLower l) ("study plan".toList)) = true))]
  rw [if_neg (by rw [c10, c11]; simp :
    ¬((pyContains l ("Motivational Note".toList) ||
       pyContains (pyLower l) ("motivation".toList)) = true))]
  rw [if_neg (by rw [p1]; simp :
    ¬(("1.".toList.isPrefixOf l && (st.current == none)) = true))]
  rw [if_neg (by rw [p2]; simp :
    ¬(("2.".toList.isPrefixOf l && (st.current == some "summary")) = true))]
  rw [if_neg (by rw [p3]; simp :
    ¬(("3.".toList.isPrefixOf l && (st.current == some "strengths")) = true))]
  rw [if_neg (by rw [p4]; simp :
    ¬(("4.".toList.isPrefixOf l && (st.current == some "improvements")) = true))]
  rw [if_neg (by rw [p5]; simp :
    ¬(("5.".toList.isPrefixOf l && (st.current == some "study_plan")) = true))]
  by_cases hm : (("-".toList.isPrefixOf l) || ("*".toList.isPrefixOf l)) = true
  · rw [if_pos hm]
  · rw [if_neg hm]
    cases l with
    | nil => exact absurd rfl hne
    | cons c t =>
      cases t with
      | nil =>
        dsimp only at hdig ⊢
        rw [if_neg (by rw [hdig]; simp : ¬(pyIsDigit c = true))]
        rw [if_pos (by simp [hc] : st.current.isSome = true)]
      | cons d2 t2 =>
        dsimp only
        by_cases hd2 : (pyIsDigit c && (decide (d2 = '.') || decide (d2 = ')'))) = true
        · rw [if_pos hd2]
        · rw [if_neg hd2]
          rw [if_pos (by simp [hc] : st.current.isSome = true)]

/-- Unfolding `anRun` one line at a time. -/
theorem anRun_cons (st : AnState) (l : List Char) (ls : List (List Char)) :
    anRun st (l :: ls) =
      (match anStep st l with
       | .ok st' => anRun st' ls
       | .error e => .error e) := rfl

/-- The run `anRun` distributes over list append. -/
theorem anRun_append (l1 l2 : List (List Char)) (st : AnState) :
    anRun st (l1 ++ l2) =
      (match anRun st l1 with
       | .ok st' => anRun st' l2
       | .error e => .error e) := by
  induction l1 generalizing st with
  | nil => simp [anRun]
  | cons x xs ih =>
    rw [List.cons_append, anRun_cons, anRun_cons]
    cases anStep st x with
    | error e => rfl
    | ok st' => exact ih st'

/-- A run of inert body lines is appended, in order, to the active
section's buffer. -/
theorem anRun_plain (bs : List (List Char)) (st : AnState) (k : String)
    (hc : st.current = some k) (hp : ∀ l ∈ bs, PlainBody l) :
    anRun st bs = .ok ⟨st.sections, st.current, st.buf ++ bs⟩ := by
  induction bs generalizing st with
  | nil =>
    obtain ⟨secs, cur, buf⟩ := st
    simp [anRun]
  | cons l ls ih =>
    rw [anRun_cons, anStep_plain st k hc (hp l (by simp))]
    dsimp only
    rw [ih ⟨st.sections, st.current, st.buf ++ [l]⟩ hc (fun x hx => hp x (by simp [hx]))]
    simp

/-- Processing one heading followed by its inert body lines, then the
remaining lines. -/
theorem anRun_seg (st : AnState) (hd : List Char)
    (secs : List (String × List (List Char))) (key : String)
    (bs rest : List (List Char))
    (hhd : anStep st hd = .ok ⟨secs, some key, []⟩)
    (hp : ∀ l ∈ bs, PlainBody l) :
    anRun st (hd :: (bs ++ rest)) = anRun ⟨secs, some key, bs⟩ rest := by
  rw [anRun_cons, hhd]
  dsimp only
  rw [anRun_append, anRun_plain bs ⟨secs, some key, []⟩ key rfl hp]
  rfl

/-- Processing the final heading followed by its inert body lines. -/
theorem anRun_last (st : AnState) (hd : List Char)
    (secs : List (String × List (List Char))) (key : String)
    (bs : List (List Char))
    (hhd : anStep st hd = .ok ⟨secs, some key, []⟩)
    (hp : ∀ l ∈ bs, PlainBody l) :
    anRun st (hd :: bs) = .ok ⟨secs, some key, bs⟩ := by
  rw [anRun_cons, hhd]
  dsimp only
  rw [anRun_plain bs ⟨secs, some key, []⟩ key rfl hp]
  rfl

/-- C6 (amended): for a text made of the five configured headings in
configured order, each followed by at least one body line, the parser
returns exactly the five configured keys with each section's body
lines in order and the heading excluded — **provided** every body line
is inert: it matches no heading's case-insensitive substring matcher,
starts with no positional enumeration marker `1.`–`5.`, and is not a
lone digit.  (Without the proviso the claim fails, see the
counterexample.) -/
theorem claim_C6 (bs1 bs2 bs3 bs4 bs5 : List (List Char))
    (h1 : bs1 ≠ []) (h2 : bs2 ≠ []) (h3 : bs3 ≠ []) (h4 : bs4 ≠ []) (h5 : bs5 ≠ [])
    (hp1 : ∀ l ∈ bs1, PlainBody l) (hp2 : ∀ l ∈ bs2, PlainBody l)
    (hp3 : ∀ l ∈ bs3, PlainBody l) (hp4 : ∀ l ∈ bs4, PlainBody l)
    (hp5 : ∀ l ∈ bs5, PlainBody l) :
    userAnalysisSectionsOfLines (userAnalysisCanonical bs1 bs2 bs3 bs4 bs5) =
      .ok [("summary", bs1), ("strengths", bs2), ("improvements", bs3),
           ("study_plan", bs4), ("motivation", bs5)] := by
  have s2 : anStep ⟨[], some "summary", bs1⟩ ("Strengths".toList) =
      .ok ⟨[("summary", bs1)], some "strengths", []⟩ := by
    rw [anStep_heading_strengths]
    simp [flushSections, dictSet, h1]
  have s3 : anStep ⟨[("summary", bs1)], some "strengths", bs2⟩
      ("Areas for Improvement".toList) =
      .ok ⟨[("summary", bs1), ("strengths", bs2)], some "improvements", []⟩ := by
    rw [anStep_heading_improvements]
    simp [flushSections, dictSet, h2]
  have s4 : anStep ⟨[("summary", bs1), ("strengths", bs2)], some "improvements", bs3⟩
      ("Personalized Study Plan".toList) =
      .ok ⟨[("summary", bs1), ("strengths", bs2), ("improvements", bs3)],
        some "study_plan", []⟩ := by
    rw [anStep_heading_study_plan]
    simp [flushSections, dictSet, h3]
  have s5 : anStep ⟨[("summary", bs1), ("strengths", bs2), ("improvements", bs3)],
      some "study_plan", bs4⟩ ("Motivational Note".toList) =
      .ok ⟨[("summary", bs1), ("strengths", bs2), ("improvements", bs3),
        ("study_plan", bs4)], some "motivation", []⟩ := by
    rw [anStep_heading_motivation]
    simp [flushSections, dictSet, h4]
  have hrun : anRun ⟨[], none, []⟩ (userAnalysisCanonical bs1 bs2 bs3 bs4 bs5) =
      .ok ⟨[("summary", bs1), ("strengths", bs2), ("improvements", bs3),
        ("study_plan", bs4)], some "motivation", bs5⟩ := by
    rw [userAnalysisCanonical]
    simp only [List.append_assoc]
    simp only [List.singleton_append]
    rw [anRun_seg _ _ _ _ _ _ (anStep_heading_summary _) hp1]
    rw [anRun_seg _ _ _ _ _ _ s2 hp2]
    rw [anRun_seg _ _ _ _ _ _ s3 hp3]
    rw [anRun_seg _ _ _ _ _ _ s4 hp4]
    rw [anRun_last _ _ _ _ _ s5 hp5]
  rw [userAnalysisSectionsOfLines, hrun]
  dsimp only
  simp [flushSections, dictSet, h5]

/-- C6 witness: a canonical five-section text with one inert body line
per section parses to exactly the five configured keys. -/
theorem claim_C6_witness :
    userAnalysisSectionsOfLines (userAnalysisCanonical
      [("Algebra".toList)] [("Geometry".toList)] [("Fractions".toList)]
      [("Drills".toList)] [("Onward".toList)]) =
      .ok [("summary", [("Algebra".toList)]), ("strengths", [("Geometry".toList)]),
           ("improvements", [("Fractions".toList)]), ("study_plan", [("Drills".toList)]),
           ("motivation", [("Onward".toList)])] :=
  claim_C6 _ _ _ _ _ (by decide) (by decide) (by decide) (by decide) (by decide)
    (by decide) (by decide) (by decide) (by decide) (by decide)

/-- For an in-range index with a full window, the pandas rolling mean
with `min_periods=1` is the full 3-element trailing moving average. -/
theorem rollingAvg_eq_trailingMA3 (s : List ℚ) (i : ℕ) (h2 : 2 ≤ i)
    (hi : i < s.length) : rollingAvg s i = trailingMA3 s i := by
  have hlen3 : 3 ≤ (s.drop (i - 2)).length := by
    rw [List.length_drop]; omega
  obtain ⟨a, b, c, t, hd⟩ : ∃ a b c t, s.drop (i - 2) = a :: b :: c :: t := by
    cases e1 : s.drop (i - 2) with
    | nil => rw [e1] at hlen3; simp at hlen3
    | cons a r1 =>
      cases e2 : r1 with
      | nil => rw [e1, e2] at hlen3; simp at hlen3
      | cons b r2 =>
        cases e3 : r2 with
        | nil => rw [e1, e2, e3] at hlen3; simp at hlen3
        | cons c t => exact ⟨a, b, c, t, rfl⟩
  have e0 : s.getD (i - 2) 0 = a := by
    rw [List.getD_eq_getElem?_getD]
    have := List.getElem?_drop s (i - 2) 0
    rw [Nat.add_zero, hd] at this
    rw [← this]
    simp
  have e1 : s.getD (i - 1) 0 = b := by
    rw [List.getD_eq_getElem?_getD]
    have := List.getElem?_drop s (i - 2) 1
    rw [show i - 2 + 1 = i - 1 from by omega, hd] at this
    rw [← this]
    simp
  have e2 : s.getD i 0 = c := by
    rw [List.getD_eq_getElem?_getD]
    have := List.getElem?_drop s (i - 2) 2
    rw [show i - 2 + 2 = i from by omega, hd] at this
    rw [← this]
    simp
  rw [rollingAvg, trailingMA3]
  rw [show i + 1 - 3 = i - 2 from by omega, show i + 1 - (i - 2) = 3 from by omega,
    hd, e0, e1, e2]
  show ([a, b, c].sum) / (([a, b, c].length : ℕ) : ℚ) = (a + b + c) / 3
  simp only [List.sum_cons, List.sum_nil, List.length_cons, List.length_nil]
  push_cast
  ring

/-- C7: with at least five attempts, the reported rolling trend is the
3-attempt trailing moving average of `score_percentage` at the most
recent attempt minus the one at the third-earliest attempt, both over
the history sorted ascending by `end_time`. -/
theorem claim_C7 (h : List QuizAttempt) (hn : 5 ≤ h.length) :
    (get_user_detailed_stats h).rolling_trend =
      some (trailingMA3 ((sortAsc h).map (fun a => a.score_percentage)) (h.length - 1) -
            trailingMA3 ((sortAsc h).map (fun a => a.score_percentage)) 2) := by
  have hne : h ≠ [] := by
    intro he; rw [he] at hn; simp at hn
  have hlen2 : (sortAsc h).length = h.length := by
    simp [sortAsc]
  have hlen : ((sortAsc h).map (fun a => a.score_percentage)).length = h.length := by
    rw [List.length_map, hlen2]
  rw [get_user_detailed_stats, if_neg hne]
  dsimp only
  rw [hlen2]
  rw [if_pos (by omega : 2 ≤ h.length), if_pos (by omega : 5 ≤ h.length)]
  dsimp only
  congr 1
  rw [rollingAvg_eq_trailingMA3 _ _ (by omega) (by rw [hlen]; omega),
    rollingAvg_eq_trailingMA3 _ _ (by omega) (by rw [hlen]; omega)]

/-- C7 witness: a concrete 5-attempt history. -/
theorem claim_C7_witness :
    (get_user_detailed_stats [⟨1, 50, 5, 10⟩, ⟨2, 60, 6, 10⟩, ⟨3, 70, 7, 10⟩,
        ⟨4, 80, 8, 10⟩, ⟨5, 90, 9, 10⟩]).rolling_trend =
      some (trailingMA3 ((sortAsc [⟨1, 50, 5, 10⟩, ⟨2, 60, 6, 10⟩, ⟨3, 70, 7, 10⟩,
          ⟨4, 80, 8, 10⟩, ⟨5, 90, 9, 10⟩]).map (fun a => a.score_percentage))
        ([(⟨1, 50, 5, 10⟩ : QuizAttempt), ⟨2, 60, 6, 10⟩, ⟨3, 70, 7, 10⟩,
          ⟨4, 80, 8, 10⟩, ⟨5, 90, 9, 10⟩].length - 1) -
        trailingMA3 ((sortAsc [⟨1, 50, 5, 10⟩, ⟨2, 60, 6, 10⟩, ⟨3, 70, 7, 10⟩,
          ⟨4, 80, 8, 10⟩, ⟨5, 90, 9, 10⟩]).map (fun a => a.score_percentage)) 2) :=
  claim_C7 _ (by decide)

/-- C8: the user summary honours its minimum-sample sentinels: empty
history gives the `has_data = false` sentinel, one attempt gives a null
recent trend, four attempts give a null rolling trend, and five give a
non-null rolling trend. -/
theorem claim_C8 :
    (get_user_detailed_stats []).has_data = false ∧
    (∀ h : List QuizAttempt, h.length = 1 →
      (get_user_detailed_stats h).recent_trend = none) ∧
    (∀ h : List QuizAttempt, h.length = 4 →
      (get_user_detailed_stats h).rolling_trend = none) ∧
    (∀ h : List QuizAttempt, h.length = 5 →
      (get_user_detailed_stats h).rolling_trend ≠ none) := by
  have hsort : ∀ h : List QuizAttempt, (sortAsc h).length = h.length := by
    intro h; simp [sortAsc]
  refine ⟨rfl, ?_, ?_, ?_⟩
  · intro h hl
    have hne : h ≠ [] := by intro he; rw [he] at hl; simp at hl
    rw [get_user_detailed_stats, if_neg hne]
    dsimp only
    rw [hsort, hl]
    norm_num
  · intro h hl
    have hne : h ≠ [] := by intro he; rw [he] at hl; simp at hl
    rw [get_user_detailed_stats, if_neg hne]
    dsimp only
    rw [hsort, hl]
    norm_num
  · intro h hl
    have hne : h ≠ [] := by intro he; rw [he] at hl; simp at hl
    rw [get_user_detailed_stats, if_neg hne]
    dsimp only
    rw [hsort, hl]
    norm_num
    simp

/-- C8 witness: concrete histories of size 1, 4 and 5. -/
theorem claim_C8_witness :
    (get_user_detailed_stats [⟨1, 50, 5, 10⟩]).recent_trend = none ∧
    (get_user_detailed_stats [⟨1, 50, 5, 10⟩, ⟨2, 60, 6, 10⟩, ⟨3, 70, 7, 10⟩,
      ⟨4, 80, 8, 10⟩]).rolling_trend = none ∧
    (get_user_detailed_stats [⟨1, 50, 5, 10⟩, ⟨2, 60, 6, 10⟩, ⟨3, 70, 7, 10⟩,
      ⟨4, 80, 8, 10⟩, ⟨5, 90, 9, 10⟩]).rolling_trend ≠ none :=
  ⟨claim_C8.2.1 _ rfl, claim_C8.2.2.1 _ rfl, claim_C8.2.2.2 _ rfl⟩

/-- C9: the linear trend fit is an ordinary least-squares regression of
score against attempt index `0, 1, 2, …`: on `[50, 60, 70, 80, 90]` it
yields a positive slope and correlation above `0.3` — so the trajectory
is classified as improving — and any fit with `|correlation| ≤ 0.3` is
classified as no meaningful trend regardless of slope sign. -/
theorem claim_C9 :
    0 < linregress_slope [50, 60, 70, 80, 90] ∧
    (0.3 : ℝ) < linregress_r [50, 60, 70, 80, 90] ∧
    trendMessage (linregress_slope [50, 60, 70, 80, 90])
      (linregress_r [50, 60, 70, 80, 90]) = "upward" ∧
    (∀ (sl : ℚ) (r : ℝ), |r| ≤ 0.3 → trendMessage sl r = "stable") := by
  have hxm : xMean 5 = 2 := by
    rw [xMean]
    norm_num [List.range_succ]
  have hym : yMean [50, 60, 70, 80, 90] = 70 := by
    rw [yMean]
    norm_num
  have hx : ssX [50, 60, 70, 80, 90] = 10 := by
    rw [ssX]
    norm_num [List.range_succ, hxm]
  have hy : ssY [50, 60, 70, 80, 90] = 1000 := by
    rw [ssY]
    norm_num [hym]
  have hxy : ssXY [50, 60, 70, 80, 90] = 100 := by
    rw [ssXY]
    norm_num [List.enum, hxm, hym]
  have hslope : linregress_slope [50, 60, 70, 80, 90] = 10 := by
    rw [linregress_slope, hx, hxy]
    norm_num
  have hr : linregress_r [50, 60, 70, 80, 90] = 1 := by
    rw [linregress_r, if_neg (by rw [hx, hy]; norm_num), hx, hy, hxy]
    have hsq : ((10 : ℚ) : ℝ) * ((1000 : ℚ) : ℝ) = (100 : ℝ) ^ 2 := by
      push_cast
      norm_num
    rw [hsq, Real.sqrt_sq (by norm_num : (0 : ℝ) ≤ 100)]
    push_cast
    norm_num
  refine ⟨by rw [hslope]; norm_num, by rw [hr]; norm_num, ?_, ?_⟩
  · rw [trendMessage, hr, hslope]
    rw [if_pos (by norm_num : (0.3 : ℝ) < |(1 : ℝ)|)]
    rw [if_pos (by norm_num : (0 : ℚ) < 10)]
  · intro sl r hle
    rw [trendMessage, if_neg (not_lt.mpr hle)]

/-- C9 witness: a zero-correlation fit is classified as stable. -/
theorem claim_C9_witness : trendMessage 1 0 = "stable" :=
  claim_C9.2.2.2 1 0 (by norm_num)

end AIQuiz
